import Mathlib

/-!
Verification of the `bool_expr_parser_nom` rule-expression engine.

The development shallowly embeds the repository's Rust sources:
* `src/ast.rs` — the `Atom` value model with its custom cross-variant
  equality (`PartialEq`) and ordering (`PartialOrd`), the operator
  enumerations with their `from_str` conversions, and the `AstNode`
  expression tree with its `as_str` accessor.
* `src/main.rs` — the prototype nom parsers (`parse_variable`,
  `parse_assignment`, `parse_bool_expr_and`/`_or`, `parse_main`).

Rust strings (`String`, `&str`) are embedded as `List Char` (named `Str`).
Rust `i32` is embedded as `Int` (no arithmetic in the sources overflows).
Rust `f64` is embedded as `F64`: either NaN or a finite value represented
by a rational number; every float literal appearing in the sources and
tests is exactly representable in `f64`, and the conversion
`f64::from(i32)` is exact, so rational arithmetic models the comparisons
faithfully.  `nom`'s `IResult<&str, T> = Result<(&str, T), Err>` is
embedded as `Option (Str × T)`, `none` standing for the typed
`ParseError` value.  Fallible Rust constructs that panic
(`unreachable!()`) are embedded as `none` of an `Option` result.
-/

abbrev Str := List Char

/-- Shorthand for the character list of a string literal. -/
def str (s : String) : Str := s.data

/-- Model of `f64`: NaN, or a finite value represented exactly as a
rational.  (Infinities do not occur in this code base; all literals and
`i32`-to-`f64` conversions are exact.) -/
inductive F64 where
  | nan : F64
  | val (q : ℚ) : F64
  deriving DecidableEq

/-- Three-way comparison on rationals, modelling `f64`/`i32` `cmp`. -/
def ratCmp (a b : ℚ) : Ordering :=
  if a < b then Ordering.lt else if a = b then Ordering.eq else Ordering.gt

/-- Three-way comparison on `Int`, modelling `i32::cmp`. -/
def intCmp (a b : Int) : Ordering :=
  if a < b then Ordering.lt else if a = b then Ordering.eq else Ordering.gt

/-- Rust `f64` equality (`==`): NaN is equal to nothing, finite values
compare by value. -/
def f64Eq : F64 → F64 → Bool
  | F64.val a, F64.val b => a == b
  | _, _ => false

/-- Rust `f64::partial_cmp`: `None` as soon as a NaN is involved. -/
def f64PartialCmp : F64 → F64 → Option Ordering
  | F64.val a, F64.val b => some (ratCmp a b)
  | _, _ => none

/-- `f64::from(i32)` — exact widening of a 32-bit integer to a double. -/
def f64FromInt (n : Int) : F64 := F64.val (n : ℚ)

/-- Model of `chrono::NaiveDate` (only its value equality matters here). -/
structure NaiveDate where
  year : Int
  month : Nat
  day : Nat
  deriving DecidableEq

/-- `Atom` from `src/ast.rs`. -/
inductive Atom where
  | String (s : Str) : Atom
  | Number (n : Int) : Atom
  | Float (f : F64) : Atom
  | Boolean (b : Bool) : Atom
  | Variable (v : Str) : Atom
  | Date (d : NaiveDate) : Atom
  | DateTime (t : Str) : Atom
  deriving DecidableEq

/-- `impl PartialEq<Atom> for Atom` from `src/ast.rs` (lines 16–31):
same-variant pairs compare by payload, `String`/`Variable` cross-pairs
compare by text, every other pair falls to the `_ => false` arm. -/
def atomEq : Atom → Atom → Bool
  | Atom.String s1, Atom.String s2 => s1 == s2
  | Atom.Variable v1, Atom.Variable v2 => v1 == v2
  | Atom.String v1, Atom.Variable v2 => v1 == v2
  | Atom.Variable v1, Atom.String v2 => v1 == v2
  | Atom.Number n1, Atom.Number n2 => n1 == n2
  | Atom.Float f1, Atom.Float f2 => f64Eq f1 f2
  | Atom.Boolean b1, Atom.Boolean b2 => b1 == b2
  | Atom.Date d1, Atom.Date d2 => d1 == d2
  | Atom.DateTime t1, Atom.DateTime t2 => t1 == t2
  | _, _ => false

/-- `impl PartialOrd for Atom` from `src/ast.rs` (lines 33–49): ordering
is attempted only between the numeric variants, widening `Number` via
`f64::from`; all other shapes yield `None`. -/
def atomPartialCmp : Atom → Atom → Option Ordering
  | Atom.Number v, Atom.Number v2 => some (intCmp v v2)
  | Atom.Number v, Atom.Float v2 => f64PartialCmp (f64FromInt v) v2
  | Atom.Float v, Atom.Float v2 => f64PartialCmp v v2
  | Atom.Float v, Atom.Number v2 => f64PartialCmp v (f64FromInt v2)
  | _, _ => none

/-- Rust's derived `<` on a `PartialOrd` type:
`a < b ↔ partial_cmp(a,b) == Some(Less)`. -/
def atomLt (a b : Atom) : Bool := atomPartialCmp a b == some Ordering.lt

/-- Discriminant of an `Atom` (which variant it is). -/
def variantTag : Atom → Nat
  | Atom.String _ => 0
  | Atom.Number _ => 1
  | Atom.Float _ => 2
  | Atom.Boolean _ => 3
  | Atom.Variable _ => 4
  | Atom.Date _ => 5
  | Atom.DateTime _ => 6

/-- Two atoms are of the same variant. -/
def sameVariant (a b : Atom) : Bool := variantTag a == variantTag b

/-- The `String`/`Variable` cross-pair text equality — the single
exception the `Atom` equality grants to mixed-variant pairs. -/
def strVarTextEq : Atom → Atom → Bool
  | Atom.String s, Atom.Variable v => s == v
  | Atom.Variable v, Atom.String s => v == s
  | _, _ => false

/-- An atom is of a numeric variant (`Number` or `Float`). -/
def isNumericAtom : Atom → Bool
  | Atom.Number _ => true
  | Atom.Float _ => true
  | _ => false

/-- An `F64` is NaN. -/
def f64IsNaN : F64 → Bool
  | F64.nan => true
  | _ => false

/-- An atom is a `Float` holding NaN. -/
def isNaNAtom : Atom → Bool
  | Atom.Float f => f64IsNaN f
  | _ => false

/-- ASCII lowercasing of a character (model of Rust case folding on the
ASCII inputs this code base handles). -/
def asciiLowerChar (c : Char) : Char :=
  if 'A' ≤ c ∧ c ≤ 'Z' then Char.ofNat (c.toNat + 32) else c

/-- ASCII uppercasing of a character. -/
def asciiUpperChar (c : Char) : Char :=
  if 'a' ≤ c ∧ c ≤ 'z' then Char.ofNat (c.toNat - 32) else c

/-- `ComparisonOp` from `src/ast.rs`. -/
inductive ComparisonOp where
  | Eq | More | Less | MoreEq | LessEq | NotEq
  deriving DecidableEq

/-- `ComparisonOp::from_str` from `src/ast.rs` (lines 75–87).  The Rust
function panics (`unreachable!()`) on unrecognized text; the panic is
embedded as `none`. -/
def comparisonOpFromStr (expr : Str) : Option ComparisonOp :=
  if expr = str "==" ∨ expr = str "=" then some ComparisonOp.Eq
  else if expr = str ">" then some ComparisonOp.More
  else if expr = str ">=" then some ComparisonOp.MoreEq
  else if expr = str "<" then some ComparisonOp.Less
  else if expr = str "<=" then some ComparisonOp.LessEq
  else if expr = str "!=" ∨ expr = str "<>" then some ComparisonOp.NotEq
  else none

/-- `LogicOp` from `src/ast.rs`. -/
inductive LogicOp where
  | And | Or
  deriving DecidableEq

/-- `LogicOp::from_str` from `src/ast.rs` (lines 107–115): lowercases its
input, then matches; the `unreachable!()` arm is embedded as `none`. -/
def logicOpFromStr (i : Str) : Option LogicOp :=
  let l := i.map asciiLowerChar
  if l = str "and" ∨ l = str "&&" then some LogicOp.And
  else if l = str "or" ∨ l = str "||" then some LogicOp.Or
  else none

/-- `ArrayOp` from `src/ast.rs`. -/
inductive ArrayOp where
  | In | NotIn
  deriving DecidableEq

/-- `FnCall` from `src/ast.rs`. -/
inductive FnCall where
  | Upper | Lower
  deriving DecidableEq

/-- `AstNode` from `src/ast.rs`. -/
inductive AstNode where
  | Void : AstNode
  | Variable (a : Atom) : AstNode
  | Function (f : FnCall) (arg : AstNode) : AstNode
  | Constant (a : Atom) : AstNode
  | List (elems : List Atom) : AstNode
  | Compare (l : AstNode) (op : ComparisonOp) (r : AstNode) : AstNode
  | Array (l : AstNode) (op : ArrayOp) (r : AstNode) : AstNode
  | Logic (l : AstNode) (op : LogicOp) (r : AstNode) : AstNode
  | Scope (expr : AstNode) (negate : Bool) : AstNode
  deriving DecidableEq

/-- `AstNode::as_str` from `src/ast.rs` (lines 142–151). -/
def asStr : AstNode → Option Str
  | AstNode.Variable (Atom.Variable s) => some s
  | AstNode.Constant (Atom.String s) => some s
  | AstNode.Constant (Atom.Variable s) => some s
  | _ => none

/-! ## The nom combinator layer and the prototype parsers of `src/main.rs` -/

/-- ASCII letter (nom `alpha1`'s character class). -/
def isAsciiAlpha (c : Char) : Bool :=
  ('A' ≤ c && c ≤ 'Z') || ('a' ≤ c && c ≤ 'z')

/-- ASCII digit. -/
def isAsciiDigit (c : Char) : Bool := '0' ≤ c && c ≤ '9'

/-- ASCII letter or digit (nom `alphanumeric1`'s character class). -/
def isAsciiAlphanum (c : Char) : Bool := isAsciiAlpha c || isAsciiDigit c

/-- First character of an identifier: letter or underscore. -/
def isIdentStart (c : Char) : Bool := isAsciiAlpha c || c == '_'

/-- Identifier continuation character: letter, digit or underscore. -/
def isIdentChar (c : Char) : Bool := isAsciiAlphanum c || c == '_'

/-- nom `multispace0`'s character class: space, tab, newline, return. -/
def isMultispaceChar (c : Char) : Bool :=
  c == ' ' || c == '\t' || c == '\n' || c == '\r'

/-- nom `space0`'s character class: space and tab. -/
def isSpaceChar (c : Char) : Bool := c == ' ' || c == '\t'

/-- nom `alpha1`: the maximal nonempty leading run of ASCII letters. -/
def alpha1 (i : Str) : Option (Str × Str) :=
  let t := i.takeWhile isAsciiAlpha
  if t.isEmpty then none else some (i.dropWhile isAsciiAlpha, t)

/-- nom `alphanumeric1`: maximal nonempty leading alphanumeric run. -/
def alphanumeric1 (i : Str) : Option (Str × Str) :=
  let t := i.takeWhile isAsciiAlphanum
  if t.isEmpty then none else some (i.dropWhile isAsciiAlphanum, t)

/-- nom `tag`: consume exactly the given literal text. -/
def tagP (t i : Str) : Option (Str × Str) :=
  if t.isPrefixOf i then some (i.drop t.length, t) else none

/-- nom `tag_no_case`: consume the literal text, ASCII-case-insensitively,
returning the matched input as written. -/
def tagNoCaseP (t i : Str) : Option (Str × Str) :=
  if (i.take t.length).map asciiLowerChar = t.map asciiLowerChar then
    some (i.drop t.length, i.take t.length)
  else none

/-- nom `char`: consume exactly one given character. -/
def charP (c : Char) (i : Str) : Option (Str × Char) :=
  match i with
  | x :: r => if x = c then some (r, c) else none
  | [] => none

/-- nom `alt` of two parsers. -/
def altP {α : Type} (p q : Str → Option (Str × α)) (i : Str) : Option (Str × α) :=
  match p i with
  | none => q i
  | r => r

/-- nom `multispace0`: consume any leading whitespace (never fails). -/
def multispace0 (i : Str) : Option (Str × Str) :=
  some (i.dropWhile isMultispaceChar, i.takeWhile isMultispaceChar)

/-- nom `space0`: consume leading spaces/tabs (never fails). -/
def space0 (i : Str) : Option (Str × Str) :=
  some (i.dropWhile isSpaceChar, i.takeWhile isSpaceChar)

/-- nom `take_until`: consume up to (excluding) the first occurrence of
the literal text; fail when the text never occurs. -/
def takeUntilP (t : Str) : Str → Option (Str × Str)
  | [] => if t.isPrefixOf ([] : Str) then some ([], []) else none
  | c :: r =>
      if t.isPrefixOf (c :: r) then some (c :: r, [])
      else
        match takeUntilP t r with
        | some (rest, pre) => some (rest, c :: pre)
        | none => none

/-- nom `many0`, with explicit fuel so that the definition is structural
and computes.  A fuel of `input.length + 1` always suffices because nom's
`many0` aborts (the final `else none` arm, nom's `ErrorKind::Many0`
guard) whenever the inner parser succeeds without consuming input, so
every iteration strictly shortens the input.  The fuel-zero arm is never
reached under that fuel. -/
def many0F {α : Type} (p : Str → Option (Str × α)) : Nat → Str → Option (Str × List α)
  | 0, _ => none
  | fuel + 1, i =>
      match p i with
      | none => some (i, [])
      | some (r, v) =>
          if r.length < i.length then
            match many0F p fuel r with
            | some (r2, vs) => some (r2, v :: vs)
            | none => none
          else none

/-- nom `many0_count`: `many0`, keeping only the number of repetitions. -/
def many0CountF {α : Type} (p : Str → Option (Str × α)) (fuel : Nat) (i : Str) :
    Option (Str × Nat) :=
  (many0F p fuel i).map (fun x => (x.1, x.2.length))

/-- `parse_variable` from `src/main.rs` (lines 46–51):
`recognize(pair(alt((alpha1, tag("_"))), many0_count(alt((alphanumeric1, tag("_"))))))`.
`recognize` returns the slice consumed by the inner pair. -/
def parseVariable (input : Str) : Option (Str × Str) :=
  match altP alpha1 (tagP (str "_")) input with
  | none => none
  | some (r1, _) =>
      match many0CountF (altP alphanumeric1 (tagP (str "_"))) (r1.length + 1) r1 with
      | none => none
      | some (r2, _) => some (r2, input.take (input.length - r2.length))

/-- `parse_variable_clean_spaces` from `src/main.rs`:
`preceded(multispace0, parse_variable)`. -/
def parseVariableCleanSpaces (input : Str) : Option (Str × Str) :=
  match multispace0 input with
  | none => none
  | some (r, _) => parseVariable r

/-- `parse_equal` from `src/main.rs`: `tuple((space0, tag("="), space0))`. -/
def parseEqual (input : Str) : Option (Str × (Str × Str × Str)) :=
  match space0 input with
  | none => none
  | some (r1, w1) =>
      match tagP (str "=") r1 with
      | none => none
      | some (r2, t) =>
          match space0 r2 with
          | none => none
          | some (r3, w2) => some (r3, (w1, t, w2))

/-- `parse_string_value` from `src/main.rs`:
`tuple((char('"'), take_until("\""), char('"')))`, yielding the quoted
content. -/
def parseStringValue (i : Str) : Option (Str × Str) :=
  match charP '"' i with
  | none => none
  | some (r1, _) =>
      match takeUntilP (str "\"") r1 with
      | none => none
      | some (r2, s) =>
          match charP '"' r2 with
          | none => none
          | some (r3, _) => some (r3, s)

/-- Model of `type Pair = HashMap<String, String>`; `parse_assignment`
only ever builds `HashMap::from([(k, v)])`, a singleton association. -/
abbrev KvPair := List (Str × Str)

/-- `parse_assignment` from `src/main.rs`. -/
def parseAssignment (input : Str) : Option (Str × KvPair) :=
  match parseVariableCleanSpaces input with
  | none => none
  | some (r1, var) =>
      match parseEqual r1 with
      | none => none
      | some (r2, _) =>
          match parseStringValue r2 with
          | none => none
          | some (r3, v) => some (r3, [(var, v)])

/-- `LogicExpr` from `src/main.rs`. -/
inductive LogicExpr where
  | And (p1 p2 : KvPair) : LogicExpr
  | Or (p1 p2 : KvPair) : LogicExpr
  deriving DecidableEq

/-- `parse_bool_expr_and` from `src/main.rs` (lines 75–80):
`separated_pair(parse_assignment, delimited(multispace0, tag_no_case("and"), multispace0), parse_assignment)`. -/
def parseBoolExprAnd (i : Str) : Option (Str × LogicExpr) :=
  match parseAssignment i with
  | none => none
  | some (r1, p1) =>
      match multispace0 r1 with
      | none => none
      | some (r2, _) =>
          match tagNoCaseP (str "and") r2 with
          | none => none
          | some (r3, _) =>
              match multispace0 r3 with
              | none => none
              | some (r4, _) =>
                  match parseAssignment r4 with
                  | none => none
                  | some (r5, p2) => some (r5, LogicExpr.And p1 p2)

/-- `parse_bool_expr_or` from `src/main.rs` (lines 82–87). -/
def parseBoolExprOr (i : Str) : Option (Str × LogicExpr) :=
  match parseAssignment i with
  | none => none
  | some (r1, p1) =>
      match multispace0 r1 with
      | none => none
      | some (r2, _) =>
          match tagNoCaseP (str "or") r2 with
          | none => none
          | some (r3, _) =>
              match multispace0 r3 with
              | none => none
              | some (r4, _) =>
                  match parseAssignment r4 with
                  | none => none
                  | some (r5, p2) => some (r5, LogicExpr.Or p1 p2)

/-- `parse_main` from `src/main.rs` (lines 89–91):
`many0(alt((parse_bool_expr_and, parse_bool_expr_or)))`. -/
def parseMain (input : Str) : Option (Str × List LogicExpr) :=
  many0F (altP parseBoolExprAnd parseBoolExprOr) (input.length + 1) input

/-- The identifier language as the spec states it: succeed exactly when
the first character is an ASCII letter or underscore, consuming the
maximal prefix matching `[A-Za-z_][A-Za-z0-9_]*`. -/
def identSpecResult (input : Str) : Option (Str × Str) :=
  match input with
  | [] => none
  | c :: _ =>
      if isIdentStart c then
        some (input.dropWhile isIdentChar, input.takeWhile isIdentChar)
      else none

/-! ## Spec-modelled operator lexing (the library's `parse.rs` is not
among the sources; its lexical layer is modelled from the spec) -/

/-- Modelled from the spec: the comparison-operator spellings of grammar
production 4 (`==`, `=`, `>`, `>=`, `<`, `<=`, `!=`, `<>`), ordered
longest first so that lexing is maximal-munch. -/
def compOpSpellings : List Str :=
  [str "==", str ">=", str "<=", str "<>", str "!=", str "=", str ">", str "<"]

/-- Modelled from the spec: the logic-operator spellings (`and`, `&&`,
`or`, `||`), matched case-insensitively (stored lowercase). -/
def logicOpSpellings : List Str :=
  [str "and", str "&&", str "or", str "||"]

/-- Try a list of literal tags in order, returning the matched text and
the rest. -/
def lexFirstTag (tags : List Str) (i : Str) : Option (Str × Str) :=
  match tags with
  | [] => none
  | t :: ts => if t.isPrefixOf i then some (t, i.drop t.length) else lexFirstTag ts i

/-- Try a list of lowercase literal tags in order, case-insensitively,
returning the matched input as written and the rest. -/
def lexFirstTagCI (tags : List Str) (i : Str) : Option (Str × Str) :=
  match tags with
  | [] => none
  | t :: ts =>
      if (i.take t.length).map asciiLowerChar = t then
        some (i.take t.length, i.drop t.length)
      else lexFirstTagCI ts i

/-- Modelled from the spec: the lexer for comparison-operator tokens.
Unknown operator text yields `none` — the typed `ParseError`. -/
def lexComparisonOp (i : Str) : Option (Str × Str) := lexFirstTag compOpSpellings i

/-- Modelled from the spec: the lexer for logic-operator tokens. -/
def lexLogicOp (i : Str) : Option (Str × Str) := lexFirstTagCI logicOpSpellings i

/-- The input begins with some comparison-operator spelling. -/
def startsWithCompOp (i : Str) : Bool :=
  compOpSpellings.any (fun t => t.isPrefixOf i)

/-- The input begins with some logic-operator spelling (case-insensitively). -/
def startsWithLogicOp (i : Str) : Bool :=
  logicOpSpellings.any (fun t => (i.take t.length).map asciiLowerChar == t)

/-! ## Spec-modelled grammar parser and evaluator.

The library's `parse.rs` and `eval.rs` are not among the sources under
verification (only `ast.rs`, the prototype `main.rs` and the integration
tests are).  The full-rule parser `parse` and the evaluator `eval` below
are therefore modelled from the spec: grammar and lexical rules from
§4.1/§6 (EBNF), evaluation rules from §4.3.  The spec gives no lexical
form for `Date`/`DateTime` literals, so the modelled grammar has none. -/

/-- Skip insignificant whitespace (spec §4.1: whitespace may appear
around any operator or punctuation). -/
def skipWs (i : Str) : Str := i.dropWhile isMultispaceChar

/-- Decimal digits to a number. -/
def digitsToNat (ds : Str) : Nat :=
  ds.foldl (fun acc c => acc * 10 + (c.toNat - '0'.toNat)) 0

/-- Modelled from the spec: numeric literals — an integer literal is an
`Atom::Number`, a decimal-point-containing literal an `Atom::Float`. -/
def parseNumberAtom (i : Str) : Option (Str × Atom) :=
  let ds := i.takeWhile isAsciiDigit
  if ds.isEmpty then none
  else
    match i.dropWhile isAsciiDigit with
    | '.' :: r2 =>
        let fs := r2.takeWhile isAsciiDigit
        if fs.isEmpty then none
        else
          some (r2.dropWhile isAsciiDigit,
            Atom.Float (F64.val
              ((digitsToNat ds : ℚ) + (digitsToNat fs : ℚ) / (10 : ℚ) ^ fs.length)))
    | r => some (r, Atom.Number (digitsToNat ds : Int))

/-- Modelled from the spec: quoted strings — double-quoted, no escape
processing, content up to the closing quote. -/
def parseQuotedString (i : Str) : Option (Str × Str) :=
  match i with
  | '"' :: r =>
      let content := r.takeWhile (fun c => !(c == '"'))
      match r.dropWhile (fun c => !(c == '"')) with
      | '"' :: r2 => some (r2, content)
      | _ => none
  | _ => none

/-- Identifier token: `[A-Za-z_][A-Za-z0-9_]*`. -/
def parseIdentName (i : Str) : Option (Str × Str) :=
  match i with
  | c :: _ =>
      if isIdentStart c then some (i.dropWhile isIdentChar, i.takeWhile isIdentChar)
      else none
  | [] => none

/-- Modelled from the spec: one list element — a quoted string becomes an
`Atom::String`, a numeric literal a `Number`/`Float`, and a bare
identifier an `Atom::Variable` (normalized against strings at evaluation
time by the `String`/`Variable` equality rule). -/
def parseAtomElem (i : Str) : Option (Str × Atom) :=
  match skipWs i with
  | '"' :: _ => (parseQuotedString (skipWs i)).map (fun p => (p.1, Atom.String p.2))
  | c :: _ =>
      if isAsciiDigit c then parseNumberAtom (skipWs i)
      else
        match parseIdentName (skipWs i) with
        | some (r, name) => some (r, Atom.Variable name)
        | none => none
  | [] => none

/-- Comma-separated nonempty list tail, up to the closing parenthesis. -/
def parseListElemsF : Nat → Str → Option (Str × List Atom)
  | 0, _ => none
  | fuel + 1, i =>
      match parseAtomElem i with
      | none => none
      | some (r, a) =>
          match skipWs r with
          | ',' :: r2 =>
              match parseListElemsF fuel r2 with
              | some (r3, rest) => some (r3, a :: rest)
              | none => none
          | ')' :: r2 => some (r2, [a])
          | _ => none

/-- Modelled from the spec: a membership list `( a, b, ... )`; the empty
list `()` is syntactically valid. -/
def parseAtomList (fuel : Nat) (i : Str) : Option (Str × List Atom) :=
  match skipWs i with
  | '(' :: r =>
      match skipWs r with
      | ')' :: r2 => some (r2, [])
      | _ => parseListElemsF fuel r
  | _ => none

/-- Consume a case-insensitive keyword with an identifier boundary after
it (so `android` is not read as `and` followed by `roid`). -/
def keywordCI (kw : Str) (i : Str) : Option Str :=
  if (i.take kw.length).map asciiLowerChar = kw then
    match i.drop kw.length with
    | [] => some []
    | c :: r => if isIdentChar c then none else some (c :: r)
  else none

/-- Modelled from the spec: a primary — string literal, numeric literal,
boolean literal (case-insensitive), case-folding function call
`upper( primary )` / `lower( primary )`, or a bare identifier, which
becomes a `Variable` reference node. -/
def parsePrimaryF : Nat → Str → Option (Str × AstNode)
  | 0, _ => none
  | fuel + 1, i =>
      match skipWs i with
      | '"' :: _ =>
          (parseQuotedString (skipWs i)).map (fun p => (p.1, AstNode.Constant (Atom.String p.2)))
      | c :: _ =>
          if isAsciiDigit c then
            (parseNumberAtom (skipWs i)).map (fun p => (p.1, AstNode.Constant p.2))
          else
            match parseIdentName (skipWs i) with
            | none => none
            | some (r, name) =>
                if name.map asciiLowerChar = str "true" then
                  some (r, AstNode.Constant (Atom.Boolean true))
                else if name.map asciiLowerChar = str "false" then
                  some (r, AstNode.Constant (Atom.Boolean false))
                else if name.map asciiLowerChar = str "upper"
                    ∨ name.map asciiLowerChar = str "lower" then
                  match skipWs r with
                  | '(' :: r2 =>
                      match parsePrimaryF fuel r2 with
                      | none => none
                      | some (r3, inner) =>
                          match skipWs r3 with
                          | ')' :: r4 =>
                              some (r4, AstNode.Function
                                (if name.map asciiLowerChar = str "upper" then FnCall.Upper
                                 else FnCall.Lower) inner)
                          | _ => none
                  | _ => some (r, AstNode.Variable (Atom.Variable name))
                else some (r, AstNode.Variable (Atom.Variable name))
      | [] => none

/-- Membership continuation after a primary:
`primary ("in" | "not in") ( list )` (keywords case-insensitive). -/
def parseMembershipTail (fuel : Nat) (p : AstNode) (i : Str) : Option (Str × AstNode) :=
  match keywordCI (str "not") (skipWs i) with
  | some r1 =>
      match keywordCI (str "in") (skipWs r1) with
      | some r2 =>
          (parseAtomList fuel r2).map
            (fun q => (q.1, AstNode.Array p ArrayOp.NotIn (AstNode.List q.2)))
      | none => none
  | none =>
      match keywordCI (str "in") (skipWs i) with
      | some r1 =>
          (parseAtomList fuel r1).map
            (fun q => (q.1, AstNode.Array p ArrayOp.In (AstNode.List q.2)))
      | none => none

/-- Comparison continuation after a primary:
`primary comparison-operator primary`; the lexed operator token goes
through `ComparisonOp::from_str`. -/
def parseCompareTail (fuel : Nat) (p : AstNode) (i : Str) : Option (Str × AstNode) :=
  match lexComparisonOp (skipWs i) with
  | none => none
  | some (tok, r) =>
      match comparisonOpFromStr tok with
      | none => none
      | some op =>
          match parsePrimaryF fuel r with
          | none => none
          | some (r2, rhs) => some (r2, AstNode.Compare p op rhs)

/-- Modelled from the spec: a term — optional negation (`not` keyword or
`!`), then a parenthesized scope, a membership test, a comparison, or a
bare primary; negation is recorded on a `Scope` node. -/
def parseTermWith (pe : Str → Option (Str × AstNode)) (fuel : Nat) (i : Str) :
    Option (Str × AstNode) :=
  let negRest :=
    match keywordCI (str "not") (skipWs i) with
    | some r => (true, r)
    | none =>
        match skipWs i with
        | '!' :: r => (true, r)
        | j => (false, j)
  match skipWs negRest.2 with
  | '(' :: r =>
      match pe r with
      | none => none
      | some (r2, inner) =>
          match skipWs r2 with
          | ')' :: r3 => some (r3, AstNode.Scope inner negRest.1)
          | _ => none
  | j =>
      match parsePrimaryF fuel j with
      | none => none
      | some (r, p) =>
          let cont :=
            match parseMembershipTail fuel p r with
            | some q => some q
            | none =>
                match parseCompareTail fuel p r with
                | some q => some q
                | none => some (r, p)
          match cont with
          | some (rr, node) =>
              some (rr, if negRest.1 then AstNode.Scope node true else node)
          | none => none

/-- The `and`-level operator token (`and` with keyword boundary, or
`&&`), recognized through `LogicOp::from_str`. -/
def andToken (i : Str) : Option Str :=
  match lexLogicOp (skipWs i) with
  | none => none
  | some (tok, r) =>
      match logicOpFromStr tok with
      | some LogicOp.And =>
          if tok.map asciiLowerChar = str "and" then
            match r with
            | c :: _ => if isIdentChar c then none else some r
            | [] => some r
          else some r
      | _ => none

/-- The `or`-level operator token (`or` with keyword boundary, or `||`). -/
def orToken (i : Str) : Option Str :=
  match lexLogicOp (skipWs i) with
  | none => none
  | some (tok, r) =>
      match logicOpFromStr tok with
      | some LogicOp.Or =>
          if tok.map asciiLowerChar = str "or" then
            match r with
            | c :: _ => if isIdentChar c then none else some r
            | [] => some r
          else some r
      | _ => none

/-- Left-associative operator chain: `acc (op term)*`. -/
def chainWith (opTok : Str → Option Str) (mk : AstNode → AstNode → AstNode)
    (next : Str → Option (Str × AstNode)) : Nat → AstNode → Str → Option (Str × AstNode)
  | 0, _, _ => none
  | fuel + 1, acc, i =>
      match opTok i with
      | none => some (i, acc)
      | some r =>
          match next r with
          | none => none
          | some (r2, t) => chainWith opTok mk next fuel (mk acc t) r2

/-- Modelled from the spec: an expression — a left-associative chain of
terms joined by logic operators, `and` binding tighter than `or`
(spec §4.1 production 5); the fuel bounds parenthesis nesting. -/
def parseExprF : Nat → Str → Option (Str × AstNode)
  | 0, _ => none
  | fuel + 1, i =>
      match parseTermWith (parseExprF fuel) (fuel + 1) i with
      | none => none
      | some (r0, t0) =>
          match chainWith andToken (fun x y => AstNode.Logic x LogicOp.And y)
              (parseTermWith (parseExprF fuel) (fuel + 1)) (r0.length + 1) t0 r0 with
          | none => none
          | some (r1, a1) =>
              chainWith orToken (fun x y => AstNode.Logic x LogicOp.Or y)
                (fun j =>
                  match parseTermWith (parseExprF fuel) (fuel + 1) j with
                  | none => none
                  | some (rr, tt) =>
                      chainWith andToken (fun x y => AstNode.Logic x LogicOp.And y)
                        (parseTermWith (parseExprF fuel) (fuel + 1)) (rr.length + 1) tt rr)
                (r1.length + 1) a1 r1

/-- Modelled from the spec: `parse(text) -> (remaining_text, AstNode)`,
`none` being the typed `ParseError`. -/
def parse (input : Str) : Option (Str × AstNode) :=
  parseExprF (input.length + 1) input

/-- Modelled from the spec (§7): the evaluation error taxonomy —
unresolved variable (named), or a type-incompatible comparison/function
application. -/
inductive EvalErr where
  | UnknownVariable (name : Str) : EvalErr
  | TypeMismatch : EvalErr
  deriving DecidableEq

/-- The caller-provided context: a mapping from variable name to `Atom`. -/
abbrev Context := List (Str × Atom)

/-- Context lookup. -/
def lookupVar (ctx : Context) (name : Str) : Option Atom :=
  match ctx with
  | [] => none
  | (k, v) :: rest => if k = name then some v else lookupVar rest name

/-- Modelled from the spec: case-folding function application — requires
a string-like atom (`String` or `Variable`), yields a new `Atom::String`;
anything else is an error. -/
def applyFn : FnCall → Atom → Except EvalErr Atom
  | FnCall.Upper, Atom.String s => Except.ok (Atom.String (s.map asciiUpperChar))
  | FnCall.Upper, Atom.Variable s => Except.ok (Atom.String (s.map asciiUpperChar))
  | FnCall.Lower, Atom.String s => Except.ok (Atom.String (s.map asciiLowerChar))
  | FnCall.Lower, Atom.Variable s => Except.ok (Atom.String (s.map asciiLowerChar))
  | _, _ => Except.error EvalErr.TypeMismatch

/-- Modelled from the spec: resolve an operand node to an `Atom` —
constants resolve to themselves, variables through the context (missing
key is a hard error), functions through `applyFn`. -/
def resolveAtom : AstNode → Context → Except EvalErr Atom
  | AstNode.Constant a, _ => Except.ok a
  | AstNode.Variable (Atom.Variable name), ctx =>
      match lookupVar ctx name with
      | some a => Except.ok a
      | none => Except.error (EvalErr.UnknownVariable name)
  | AstNode.Function f arg, ctx =>
      match resolveAtom arg ctx with
      | Except.ok a => applyFn f a
      | Except.error e => Except.error e
  | _, _ => Except.error EvalErr.TypeMismatch

/-- Modelled from the spec: a comparison — `Eq`/`NotEq` use the `Atom`
equality relation, the four ordering operators require the two sides to
be numeric-comparable (error otherwise). -/
def compareOpHolds (op : ComparisonOp) (a b : Atom) : Except EvalErr Bool :=
  match op with
  | ComparisonOp.Eq => Except.ok (atomEq a b)
  | ComparisonOp.NotEq => Except.ok (!atomEq a b)
  | _ =>
      match atomPartialCmp a b with
      | none => Except.error EvalErr.TypeMismatch
      | some o =>
          Except.ok
            (match op, o with
             | ComparisonOp.More, Ordering.gt => true
             | ComparisonOp.Less, Ordering.lt => true
             | ComparisonOp.MoreEq, Ordering.gt => true
             | ComparisonOp.MoreEq, Ordering.eq => true
             | ComparisonOp.LessEq, Ordering.lt => true
             | ComparisonOp.LessEq, Ordering.eq => true
             | _, _ => false)

/-- Modelled from the spec (§4.3): the evaluator — reduces an AST against
a context to a boolean; `Void` is vacuously unsatisfied, `and`/`or`
short-circuit, membership uses the `Atom` equality relation, a `Scope`
inverts its inner result when its negate flag is set. -/
def eval : AstNode → Context → Except EvalErr Bool
  | AstNode.Void, _ => Except.ok false
  | AstNode.Compare l op r, ctx =>
      match resolveAtom l ctx with
      | Except.error e => Except.error e
      | Except.ok a =>
          match resolveAtom r ctx with
          | Except.error e => Except.error e
          | Except.ok b => compareOpHolds op a b
  | AstNode.Array l op r, ctx =>
      match r with
      | AstNode.List elems =>
          match resolveAtom l ctx with
          | Except.error e => Except.error e
          | Except.ok a =>
              Except.ok
                (match op with
                 | ArrayOp.In => elems.any (fun x => atomEq a x)
                 | ArrayOp.NotIn => !(elems.any (fun x => atomEq a x)))
      | _ => Except.error EvalErr.TypeMismatch
  | AstNode.Logic l op r, ctx =>
      match eval l ctx with
      | Except.error e => Except.error e
      | Except.ok bl =>
          match op with
          | LogicOp.And => if bl then eval r ctx else Except.ok false
          | LogicOp.Or => if bl then Except.ok true else eval r ctx
  | AstNode.Scope e neg, ctx =>
      match eval e ctx with
      | Except.error er => Except.error er
      | Except.ok b => Except.ok (if neg then !b else b)
  | _, _ => Except.error EvalErr.TypeMismatch

/-- Scenario A's rule text (spec §8, test `test_evaluation`). -/
def ruleA : Str :=
  str "accountRole in (Admin, admin, \"Admin/Order Manager\") and upper(account_country_code) in (LT, NL, DE, GB, US) and user_id <= 2032313"

/-- Scenario A's evaluation context. -/
def ctxA : Context :=
  [(str "accountRole", Atom.String (str "Admin/Order Manager")),
   (str "account_country_code", Atom.String (str "lt")),
   (str "user_id", Atom.Number 2032312)]

/-! ## Theorems about the `Atom` value model -/

theorem f64PartialCmp_isSome (f g : F64) :
    (f64PartialCmp f g).isSome = (!f64IsNaN f && !f64IsNaN g) := by
  cases f <;> cases g <;> rfl

/-- C1: `Atom::String(s1) == Atom::Variable(s2)` holds iff `s1 = s2`, and
symmetrically `Atom::Variable(s1) == Atom::String(s2)` iff `s1 = s2`. -/
theorem c1_string_variable_eq_symm (s1 s2 : Str) :
    (atomEq (Atom.String s1) (Atom.Variable s2) = true ↔ s1 = s2)
    ∧ (atomEq (Atom.Variable s1) (Atom.String s2) = true ↔ s1 = s2) := by
  constructor <;> simp [atomEq]

theorem c1_string_variable_eq_symm_witness :
    atomEq (Atom.String (str "Admin")) (Atom.Variable (str "Admin")) = true
    ∧ atomEq (Atom.Variable (str "Admin")) (Atom.String (str "Admin")) = true :=
  ⟨(c1_string_variable_eq_symm (str "Admin") (str "Admin")).1.mpr rfl,
   (c1_string_variable_eq_symm (str "Admin") (str "Admin")).2.mpr rfl⟩

/-- C2 counterexample: the claim also asserts
`Atom::Number(5) == Atom::Float(5.0)` is true, but the `PartialEq`
implementation has no `Number`/`Float` arm, so the equality is false. -/
theorem c2_number_float_eq_counterexample :
    atomEq (Atom.Number 5) (Atom.Float (F64.val 5)) = false := rfl

/-- C2 (amended): `Atom::Number(5) < Atom::Float(5.5)` is true via
`partial_cmp` widening, and `partial_cmp(Number 5, Float 5.0)` is
`Some(Equal)`; but `Atom` equality (`==`) between `Number` and `Float` is
always false, so `Atom::Number(5) == Atom::Float(5.0)` is false. -/
theorem c2_numeric_widening_amended :
    atomLt (Atom.Number 5) (Atom.Float (F64.val (11 / 2))) = true
    ∧ atomPartialCmp (Atom.Number 5) (Atom.Float (F64.val 5)) = some Ordering.eq
    ∧ atomEq (Atom.Number 5) (Atom.Float (F64.val 5)) = false := by
  refine ⟨?_, ?_, rfl⟩
  · have h : (((5 : Int) : ℚ)) < 11 / 2 := by norm_num
    simp only [atomLt, atomPartialCmp, f64PartialCmp, f64FromInt, ratCmp]
    rw [if_pos h]
    rfl
  · have h1 : ¬(((5 : Int) : ℚ) < 5) := by norm_num
    have h2 : (((5 : Int) : ℚ)) = 5 := by norm_num
    simp only [atomPartialCmp, f64PartialCmp, f64FromInt, ratCmp]
    rw [if_neg h1, if_pos h2]

/-- C3 counterexample: both operands are numeric variants, yet
`partial_cmp` returns `None`, because `f64` NaN is incomparable. -/
theorem c3_nan_counterexample :
    isNumericAtom (Atom.Float F64.nan) = true
    ∧ isNumericAtom (Atom.Float (F64.val 0)) = true
    ∧ atomPartialCmp (Atom.Float F64.nan) (Atom.Float (F64.val 0)) = none :=
  ⟨rfl, rfl, rfl⟩

/-- C3 (amended): `Atom::partial_cmp` returns `Some` exactly when both
sides are numeric variants and neither is a `Float` holding NaN; a
`Number` operand is widened to floating point against a `Float` operand;
any non-numeric operand yields `None`. -/
theorem c3_partial_cmp_characterization :
    (∀ a b : Atom, (atomPartialCmp a b).isSome =
        (isNumericAtom a && isNumericAtom b && !isNaNAtom a && !isNaNAtom b))
    ∧ (∀ (n : Int) (q : ℚ),
        atomPartialCmp (Atom.Number n) (Atom.Float (F64.val q)) = some (ratCmp (n : ℚ) q))
    ∧ (∀ (n : Int) (q : ℚ),
        atomPartialCmp (Atom.Float (F64.val q)) (Atom.Number n) = some (ratCmp q (n : ℚ))) := by
  refine ⟨?_, fun n q => rfl, fun n q => rfl⟩
  intro a b
  cases a <;> cases b <;>
    simp [atomPartialCmp, isNumericAtom, isNaNAtom, f64PartialCmp_isSome, f64FromInt, f64IsNaN]

/-- C4: atoms of differing variants are never equal, except the
`String`/`Variable` pairing, which compares by text; in particular
`Number` vs `Float`, `Number` vs `Boolean`, `String` vs `Number` and
`Date` vs `DateTime` always compare unequal. -/
theorem c4_cross_variant_eq :
    (∀ a b : Atom, sameVariant a b = false → atomEq a b = strVarTextEq a b)
    ∧ (∀ (n : Int) (f : F64), atomEq (Atom.Number n) (Atom.Float f) = false)
    ∧ (∀ (n : Int) (b : Bool), atomEq (Atom.Number n) (Atom.Boolean b) = false)
    ∧ (∀ (s : Str) (n : Int), atomEq (Atom.String s) (Atom.Number n) = false)
    ∧ (∀ (d : NaiveDate) (t : Str), atomEq (Atom.Date d) (Atom.DateTime t) = false) := by
  refine ⟨?_, fun n f => rfl, fun n b => rfl, fun s n => rfl, fun d t => rfl⟩
  intro a b h
  cases a <;> cases b <;> simp_all [sameVariant, variantTag, atomEq, strVarTextEq]

theorem c4_cross_variant_eq_witness :
    sameVariant (Atom.Number 1) (Atom.Boolean true) = false
    ∧ atomEq (Atom.Number 1) (Atom.Boolean true) = strVarTextEq (Atom.Number 1) (Atom.Boolean true) :=
  ⟨rfl, c4_cross_variant_eq.1 (Atom.Number 1) (Atom.Boolean true) rfl⟩

/-- C5 counterexample: equality on `Atom` is not reflexive for every
atom — a `Float` holding NaN is unequal to itself, as `f64` equality
rejects NaN. -/
theorem c5_nan_refl_counterexample :
    atomEq (Atom.Float F64.nan) (Atom.Float F64.nan) = false := rfl

/-- C5 (amended): equality on `Atom` is reflexive within each variant by
underlying value, for every atom except a `Float` holding NaN. -/
theorem c5_eq_refl_amended (a : Atom) (h : a ≠ Atom.Float F64.nan) :
    atomEq a a = true := by
  cases a <;> try simp [atomEq]
  rename_i f
  cases f
  · exact absurd rfl h
  · simp [atomEq, f64Eq]

theorem c5_eq_refl_amended_witness :
    atomEq (Atom.Number 3) (Atom.Number 3) = true :=
  c5_eq_refl_amended (Atom.Number 3) (by decide)

/-- C9: `AstNode::as_str` returns `Some` of the underlying text exactly
for the node shapes `Variable(Atom::Variable)`, `Constant(Atom::String)`
and `Constant(Atom::Variable)`; every other node shape yields `None`. -/
theorem c9_as_str_characterization (n : AstNode) (s : Str) :
    asStr n = some s ↔
      n = AstNode.Variable (Atom.Variable s)
      ∨ n = AstNode.Constant (Atom.String s)
      ∨ n = AstNode.Constant (Atom.Variable s) := by
  constructor
  · intro h
    cases n <;> try simp [asStr] at h
    case Variable a =>
      cases a <;> simp_all [asStr]
    case Constant a =>
      cases a <;> simp_all [asStr]
  · intro h
    rcases h with rfl | rfl | rfl <;> rfl

theorem c9_as_str_characterization_witness :
    asStr (AstNode.Constant (Atom.String (str "Admin"))) = some (str "Admin") :=
  (c9_as_str_characterization (AstNode.Constant (Atom.String (str "Admin"))) (str "Admin")).mpr
    (Or.inr (Or.inl rfl))

/-! ## Theorems about `parse_variable` (C8) -/

theorem identStart_identChar {c : Char} (h : isIdentStart c = true) : isIdentChar c = true := by
  simp only [isIdentStart, Bool.or_eq_true] at h
  rcases h with h | h
  · simp [isIdentChar, isAsciiAlphanum, h]
  · simp [isIdentChar, h]

theorem alnum_identChar {c : Char} (h : isAsciiAlphanum c = true) : isIdentChar c = true := by
  simp [isIdentChar, h]

theorem alpha_identChar {c : Char} (h : isAsciiAlpha c = true) : isIdentChar c = true := by
  simp [isIdentChar, isAsciiAlphanum, h]

theorem length_dropWhile_le (p : Char → Bool) (l : Str) :
    (l.dropWhile p).length ≤ l.length := by
  induction l with
  | nil => simp [List.dropWhile]
  | cons c r ih =>
    cases hc : p c with
    | true => rw [List.dropWhile_cons_of_pos hc]; exact Nat.le_succ_of_le ih
    | false => rw [List.dropWhile_cons_of_neg (by simp [hc])]

theorem dropWhile_dropWhile_of_imp {p q : Char → Bool} (h : ∀ x, p x = true → q x = true) :
    ∀ l : Str, (l.dropWhile p).dropWhile q = l.dropWhile q := by
  intro l
  induction l with
  | nil => rfl
  | cons c r ih =>
    cases hc : p c with
    | true =>
      rw [List.dropWhile_cons_of_pos hc, ih, List.dropWhile_cons_of_pos (h c hc)]
    | false =>
      rw [List.dropWhile_cons_of_neg (by simp [hc])]

theorem take_sub_dropWhile (p : Char → Bool) (l : Str) :
    l.take (l.length - (l.dropWhile p).length) = l.takeWhile p := by
  set tw := l.takeWhile p with htw
  set dw := l.dropWhile p with hdw
  have hl : l = tw ++ dw := (List.takeWhile_append_dropWhile (p := p) (l := l)).symm
  rw [hl, List.length_append, Nat.add_sub_cancel, List.take_left]

theorem identLoop_spec :
    ∀ (fuel : Nat) (i : Str), i.length < fuel →
      ∃ vs, many0F (altP alphanumeric1 (tagP (str "_"))) fuel i
        = some (i.dropWhile isIdentChar, vs) := by
  intro fuel
  induction fuel with
  | zero => intro i h; exact absurd h (Nat.not_lt_zero _)
  | succ f ih =>
    intro i hlen
    match i with
    | [] => exact ⟨[], rfl⟩
    | c :: r =>
      cases hc : isIdentChar c with
      | false =>
        have halnum : isAsciiAlphanum c = false := by
          simp only [isIdentChar, Bool.or_eq_false_iff] at hc; exact hc.1
        have hund : (c == '_') = false := by
          simp only [isIdentChar, Bool.or_eq_false_iff] at hc; exact hc.2
        have hne : ¬(('_' : Char) = c) := by
          intro h; rw [← h] at hund; simp at hund
        have hp : altP alphanumeric1 (tagP (str "_")) (c :: r) = none := by
          simp [altP, alphanumeric1, tagP, List.takeWhile_cons, halnum, str,
            List.isPrefixOf, hne]
        refine ⟨[], ?_⟩
        simp only [many0F, hp]
        rw [List.dropWhile_cons_of_neg (by simp [hc])]
      | true =>
        cases ha : isAsciiAlphanum c with
        | true =>
          have hp : altP alphanumeric1 (tagP (str "_")) (c :: r)
              = some (r.dropWhile isAsciiAlphanum, c :: r.takeWhile isAsciiAlphanum) := by
            simp [altP, alphanumeric1, List.takeWhile_cons, ha,
              List.dropWhile_cons_of_pos (p := isAsciiAlphanum) ha]
          have hlt : (r.dropWhile isAsciiAlphanum).length < (c :: r).length :=
            Nat.lt_succ_of_le (length_dropWhile_le isAsciiAlphanum r)
          have hf : (r.dropWhile isAsciiAlphanum).length < f := by
            have h1 : (r.dropWhile isAsciiAlphanum).length ≤ r.length :=
              length_dropWhile_le isAsciiAlphanum r
            have h2 : (c :: r).length < f + 1 := hlen
            simp only [List.length_cons] at h2
            omega
          obtain ⟨vs, hvs⟩ := ih (r.dropWhile isAsciiAlphanum) hf
          refine ⟨(c :: r.takeWhile isAsciiAlphanum) :: vs, ?_⟩
          simp only [many0F, hp, if_pos hlt, hvs]
          rw [dropWhile_dropWhile_of_imp (fun x hx => alnum_identChar hx) r,
            List.dropWhile_cons_of_pos hc]
        | false =>
          have hund : (c == '_') = true := by
            simp only [isIdentChar, Bool.or_eq_true] at hc
            rcases hc with hc | hc
            · exact absurd hc (by simp [ha])
            · exact hc
          have hceq : c = '_' := by simpa using hund
          have hp : altP alphanumeric1 (tagP (str "_")) (c :: r) = some (r, ['_']) := by
            subst hceq
            simp [altP, alphanumeric1, tagP, List.takeWhile_cons, ha, str, List.isPrefixOf]
          have hlt : r.length < (c :: r).length := Nat.lt_succ_self _
          have hf : r.length < f := by
            have h2 : (c :: r).length < f + 1 := hlen
            simp only [List.length_cons] at h2
            omega
          obtain ⟨vs, hvs⟩ := ih r hf
          refine ⟨['_'] :: vs, ?_⟩
          simp only [many0F, hp, if_pos hlt, hvs]
          rw [List.dropWhile_cons_of_pos hc]

theorem parseVariable_spec (input : Str) : parseVariable input = identSpecResult input := by
  match input with
  | [] => rfl
  | c :: r =>
    cases hs : isIdentStart c with
    | false =>
      have halpha : isAsciiAlpha c = false := by
        simp only [isIdentStart, Bool.or_eq_false_iff] at hs; exact hs.1
      have hund : (c == '_') = false := by
        simp only [isIdentStart, Bool.or_eq_false_iff] at hs; exact hs.2
      have hne : ¬(('_' : Char) = c) := by
        intro h; rw [← h] at hund; simp at hund
      have hp : altP alpha1 (tagP (str "_")) (c :: r) = none := by
        simp [altP, alpha1, tagP, List.takeWhile_cons, halpha, str, List.isPrefixOf, hne]
      simp [parseVariable, hp, identSpecResult, hs]
    | true =>
      have hic : isIdentChar c = true := identStart_identChar hs
      rcases (by simpa [isIdentStart] using hs : isAsciiAlpha c = true ∨ (c == '_') = true)
        with ha | hu
      · have hp : altP alpha1 (tagP (str "_")) (c :: r)
            = some (r.dropWhile isAsciiAlpha, c :: r.takeWhile isAsciiAlpha) := by
          simp [altP, alpha1, List.takeWhile_cons, ha,
            List.dropWhile_cons_of_pos (p := isAsciiAlpha) ha]
        obtain ⟨vs, hvs⟩ :=
          identLoop_spec ((r.dropWhile isAsciiAlpha).length + 1) (r.dropWhile isAsciiAlpha)
            (Nat.lt_succ_self _)
        have hdd : (r.dropWhile isAsciiAlpha).dropWhile isIdentChar
            = (c :: r).dropWhile isIdentChar := by
          rw [dropWhile_dropWhile_of_imp (fun x hx => alpha_identChar hx) r,
            List.dropWhile_cons_of_pos hic]
        simp only [parseVariable, hp, many0CountF, hvs, Option.map_some', hdd]
        simp only [identSpecResult, hs, if_pos]
        rw [take_sub_dropWhile isIdentChar (c :: r)]
      · have hceq : c = '_' := by simpa using hu
        have halpha : isAsciiAlpha c = false := by
          subst hceq; rfl
        have hp : altP alpha1 (tagP (str "_")) (c :: r) = some (r, ['_']) := by
          subst hceq
          simp [altP, alpha1, tagP, List.takeWhile_cons, halpha, str, List.isPrefixOf]
        obtain ⟨vs, hvs⟩ := identLoop_spec (r.length + 1) r (Nat.lt_succ_self _)
        have hdd : r.dropWhile isIdentChar = (c :: r).dropWhile isIdentChar := by
          rw [List.dropWhile_cons_of_pos hic]
        simp only [parseVariable, hp, many0CountF, hvs, Option.map_some', hdd]
        simp only [identSpecResult, hs, if_pos]
        rw [take_sub_dropWhile isIdentChar (c :: r)]

/-- C8: the identifier lexer `parse_variable` succeeds exactly on inputs
whose first character is an ASCII letter or underscore, and then consumes
the maximal prefix matching `[A-Za-z_][A-Za-z0-9_]*`; all other inputs
(digit, punctuation, whitespace, empty) give a parse error. -/
theorem c8_parse_variable_characterization (input : Str) :
    parseVariable input = identSpecResult input :=
  parseVariable_spec input

/-! ## Theorems about `parse_main` totality (C10) -/

theorem tagP_rest_le {t i rest out : Str} (h : tagP t i = some (rest, out)) :
    rest.length ≤ i.length := by
  by_cases hp : t.isPrefixOf i
  · rw [tagP, if_pos hp] at h
    simp only [Option.some.injEq, Prod.mk.injEq] at h
    obtain ⟨rfl, -⟩ := h
    simp only [List.length_drop]
    omega
  · rw [tagP, if_neg hp] at h
    simp at h

theorem tagNoCaseP_rest_le {t i rest out : Str} (h : tagNoCaseP t i = some (rest, out)) :
    rest.length ≤ i.length := by
  by_cases hp : (i.take t.length).map asciiLowerChar = t.map asciiLowerChar
  · rw [tagNoCaseP, if_pos hp] at h
    simp only [Option.some.injEq, Prod.mk.injEq] at h
    obtain ⟨rfl, -⟩ := h
    simp only [List.length_drop]
    omega
  · rw [tagNoCaseP, if_neg hp] at h
    simp at h

theorem charP_rest_lt {c : Char} {i rest : Str} {out : Char}
    (h : charP c i = some (rest, out)) : rest.length < i.length := by
  match i with
  | [] => simp [charP] at h
  | x :: r =>
    by_cases hx : x = c
    · rw [charP, if_pos hx] at h
      simp only [Option.some.injEq, Prod.mk.injEq] at h
      obtain ⟨rfl, -⟩ := h
      exact Nat.lt_succ_self _
    · rw [charP, if_neg hx] at h
      simp at h

theorem takeUntilP_rest_le {t : Str} :
    ∀ {i rest out : Str}, takeUntilP t i = some (rest, out) → rest.length ≤ i.length := by
  intro i
  induction i with
  | nil =>
    intro rest out h
    rw [takeUntilP] at h
    split at h
    · simp only [Option.some.injEq, Prod.mk.injEq] at h
      obtain ⟨rfl, -⟩ := h
      exact Nat.le_refl _
    · simp at h
  | cons c r ih =>
    intro rest out h
    rw [takeUntilP] at h
    split at h
    · simp only [Option.some.injEq, Prod.mk.injEq] at h
      obtain ⟨rfl, -⟩ := h
      exact Nat.le_refl _
    · cases e : takeUntilP t r with
      | none => rw [e] at h; simp at h
      | some p =>
        obtain ⟨rest0, pre0⟩ := p
        rw [e] at h
        simp only [Option.some.injEq, Prod.mk.injEq] at h
        obtain ⟨rfl, -⟩ := h
        exact Nat.le_succ_of_le (ih e)

theorem parseVariable_rest_lt {input rest out : Str}
    (h : parseVariable input = some (rest, out)) : rest.length < input.length := by
  rw [parseVariable_spec] at h
  cases input with
  | nil => simp [identSpecResult] at h
  | cons c r =>
    simp only [identSpecResult] at h
    split at h
    case isTrue hs =>
      simp only [Option.some.injEq, Prod.mk.injEq] at h
      obtain ⟨rfl, -⟩ := h
      rw [List.dropWhile_cons_of_pos (identStart_identChar hs)]
      exact Nat.lt_succ_of_le (length_dropWhile_le _ _)
    case isFalse => simp at h

theorem parseEqual_rest_le {i rest : Str} {out : Str × Str × Str}
    (h : parseEqual i = some (rest, out)) : rest.length ≤ i.length := by
  simp only [parseEqual, space0] at h
  cases e : tagP (str "=") (i.dropWhile isSpaceChar) with
  | none => rw [e] at h; simp at h
  | some p =>
    obtain ⟨r2, t⟩ := p
    rw [e] at h
    simp only [Option.some.injEq, Prod.mk.injEq] at h
    obtain ⟨rfl, -⟩ := h
    calc (r2.dropWhile isSpaceChar).length ≤ r2.length := length_dropWhile_le _ _
      _ ≤ (i.dropWhile isSpaceChar).length := tagP_rest_le e
      _ ≤ i.length := length_dropWhile_le _ _

theorem parseStringValue_rest_le {i rest out : Str}
    (h : parseStringValue i = some (rest, out)) : rest.length ≤ i.length := by
  simp only [parseStringValue] at h
  cases e1 : charP '"' i with
  | none => rw [e1] at h; simp at h
  | some p1 =>
    obtain ⟨r1, c1⟩ := p1
    rw [e1] at h
    dsimp only at h
    cases e2 : takeUntilP (str "\"") r1 with
    | none => rw [e2] at h; simp at h
    | some p2 =>
      obtain ⟨r2, s⟩ := p2
      rw [e2] at h
      dsimp only at h
      cases e3 : charP '"' r2 with
      | none => rw [e3] at h; simp at h
      | some p3 =>
        obtain ⟨r3, c3⟩ := p3
        rw [e3] at h
        simp only [Option.some.injEq, Prod.mk.injEq] at h
        obtain ⟨rfl, -⟩ := h
        calc r3.length ≤ r2.length := Nat.le_of_lt (charP_rest_lt e3)
          _ ≤ r1.length := takeUntilP_rest_le e2
          _ ≤ i.length := Nat.le_of_lt (charP_rest_lt e1)

theorem parseAssignment_rest_lt {i rest : Str} {out : KvPair}
    (h : parseAssignment i = some (rest, out)) : rest.length < i.length := by
  simp only [parseAssignment, parseVariableCleanSpaces, multispace0] at h
  cases e1 : parseVariable (i.dropWhile isMultispaceChar) with
  | none => rw [e1] at h; simp at h
  | some p1 =>
    obtain ⟨r1, var⟩ := p1
    rw [e1] at h
    dsimp only at h
    cases e2 : parseEqual r1 with
    | none => rw [e2] at h; simp at h
    | some p2 =>
      obtain ⟨r2, q⟩ := p2
      rw [e2] at h
      dsimp only at h
      cases e3 : parseStringValue r2 with
      | none => rw [e3] at h; simp at h
      | some p3 =>
        obtain ⟨r3, v⟩ := p3
        rw [e3] at h
        simp only [Option.some.injEq, Prod.mk.injEq] at h
        obtain ⟨rfl, -⟩ := h
        calc r3.length ≤ r2.length := parseStringValue_rest_le e3
          _ ≤ r1.length := parseEqual_rest_le e2
          _ < (i.dropWhile isMultispaceChar).length := parseVariable_rest_lt e1
          _ ≤ i.length := length_dropWhile_le _ _

theorem parseBoolExprAnd_rest_lt {i rest : Str} {out : LogicExpr}
    (h : parseBoolExprAnd i = some (rest, out)) : rest.length < i.length := by
  simp only [parseBoolExprAnd, multispace0] at h
  cases e1 : parseAssignment i with
  | none => rw [e1] at h; simp at h
  | some p1 =>
    obtain ⟨r1, q1⟩ := p1
    rw [e1] at h
    dsimp only at h
    cases e2 : tagNoCaseP (str "and") (r1.dropWhile isMultispaceChar) with
    | none => rw [e2] at h; simp at h
    | some p2 =>
      obtain ⟨r3, t⟩ := p2
      rw [e2] at h
      dsimp only at h
      cases e3 : parseAssignment (r3.dropWhile isMultispaceChar) with
      | none => rw [e3] at h; simp at h
      | some p3 =>
        obtain ⟨r5, q2⟩ := p3
        rw [e3] at h
        simp only [Option.some.injEq, Prod.mk.injEq] at h
        obtain ⟨rfl, -⟩ := h
        calc r5.length < (r3.dropWhile isMultispaceChar).length := parseAssignment_rest_lt e3
          _ ≤ r3.length := length_dropWhile_le _ _
          _ ≤ (r1.dropWhile isMultispaceChar).length := tagNoCaseP_rest_le e2
          _ ≤ r1.length := length_dropWhile_le _ _
          _ < i.length := parseAssignment_rest_lt e1

theorem parseBoolExprOr_rest_lt {i rest : Str} {out : LogicExpr}
    (h : parseBoolExprOr i = some (rest, out)) : rest.length < i.length := by
  simp only [parseBoolExprOr, multispace0] at h
  cases e1 : parseAssignment i with
  | none => rw [e1] at h; simp at h
  | some p1 =>
    obtain ⟨r1, q1⟩ := p1
    rw [e1] at h
    dsimp only at h
    cases e2 : tagNoCaseP (str "or") (r1.dropWhile isMultispaceChar) with
    | none => rw [e2] at h; simp at h
    | some p2 =>
      obtain ⟨r3, t⟩ := p2
      rw [e2] at h
      dsimp only at h
      cases e3 : parseAssignment (r3.dropWhile isMultispaceChar) with
      | none => rw [e3] at h; simp at h
      | some p3 =>
        obtain ⟨r5, q2⟩ := p3
        rw [e3] at h
        simp only [Option.some.injEq, Prod.mk.injEq] at h
        obtain ⟨rfl, -⟩ := h
        calc r5.length < (r3.dropWhile isMultispaceChar).length := parseAssignment_rest_lt e3
          _ ≤ r3.length := length_dropWhile_le _ _
          _ ≤ (r1.dropWhile isMultispaceChar).length := tagNoCaseP_rest_le e2
          _ ≤ r1.length := length_dropWhile_le _ _
          _ < i.length := parseAssignment_rest_lt e1

theorem altP_cases {α : Type} {p q : Str → Option (Str × α)} {i : Str} {res : Str × α}
    (h : altP p q i = some res) : p i = some res ∨ q i = some res := by
  unfold altP at h
  cases e : p i with
  | none => rw [e] at h; exact Or.inr h
  | some r => rw [e] at h; exact Or.inl h

theorem many0F_isSome {α : Type} {p : Str → Option (Str × α)}
    (hstrict : ∀ i rest v, p i = some (rest, v) → rest.length < i.length) :
    ∀ (fuel : Nat) (i : Str), i.length < fuel → (many0F p fuel i).isSome = true := by
  intro fuel
  induction fuel with
  | zero => intro i h; exact absurd h (Nat.not_lt_zero _)
  | succ f ih =>
    intro i hlen
    simp only [many0F]
    cases e : p i with
    | none => rfl
    | some rv =>
      obtain ⟨r, v⟩ := rv
      have hlt := hstrict i r v e
      dsimp only
      rw [if_pos hlt]
      have hf : r.length < f := by
        have : i.length ≤ f := Nat.lt_succ_iff.mp hlen
        omega
      have hsome := ih r hf
      cases e2 : many0F p f r with
      | none => rw [e2] at hsome; simp at hsome
      | some p2 =>
        obtain ⟨r2, vs⟩ := p2
        simp

/-- C10: the prototype top-level parser `parse_main` is total in the
error sense: it returns `Ok` on every input; when no leading and/or
assignment pair matches (including on the empty input) it returns the
empty expression list with the whole input as the remainder, not a
`ParseError`. -/
theorem c10_parse_main_total :
    (∀ input : Str, (parseMain input).isSome = true)
    ∧ (∀ input : Str,
        altP parseBoolExprAnd parseBoolExprOr input = none →
          parseMain input = some (input, [])) := by
  constructor
  · intro input
    refine many0F_isSome ?_ (input.length + 1) input (Nat.lt_succ_self _)
    intro i rest v h
    rcases altP_cases h with h | h
    · exact parseBoolExprAnd_rest_lt h
    · exact parseBoolExprOr_rest_lt h
  · intro input h
    simp [parseMain, many0F, h]

theorem c10_parse_main_total_witness :
    (parseMain []).isSome = true ∧ parseMain [] = some ([], []) :=
  ⟨c10_parse_main_total.1 [], c10_parse_main_total.2 [] (by decide)⟩

/-! ## Theorems about operator lexing and `from_str` (C6) -/

theorem lexFirstTag_isSome (tags : List Str) (i : Str) :
    (lexFirstTag tags i).isSome = tags.any (fun t => t.isPrefixOf i) := by
  induction tags with
  | nil => rfl
  | cons t ts ih =>
    simp only [lexFirstTag, List.any_cons]
    cases hp : t.isPrefixOf i with
    | true => simp [hp]
    | false => simp [hp, ih]

theorem lexFirstTagCI_isSome (tags : List Str) (i : Str) :
    (lexFirstTagCI tags i).isSome
      = tags.any (fun t => (i.take t.length).map asciiLowerChar == t) := by
  induction tags with
  | nil => rfl
  | cons t ts ih =>
    rw [lexFirstTagCI, List.any_cons]
    by_cases hp : (i.take t.length).map asciiLowerChar = t
    · rw [if_pos hp, beq_iff_eq.mpr hp, Bool.true_or]
      rfl
    · rw [if_neg hp, beq_eq_false_iff_ne.mpr hp, Bool.false_or, ih]

theorem lexFirstTag_mem {tags : List Str} {i t r : Str}
    (h : lexFirstTag tags i = some (t, r)) : t ∈ tags := by
  induction tags with
  | nil => simp [lexFirstTag] at h
  | cons t0 ts ih =>
    rw [lexFirstTag] at h
    split at h
    · simp only [Option.some.injEq, Prod.mk.injEq] at h
      obtain ⟨rfl, -⟩ := h
      exact List.mem_cons_self t0 ts
    · exact List.mem_cons_of_mem t0 (ih h)

theorem lexFirstTagCI_lower {tags : List Str} {i t r : Str}
    (h : lexFirstTagCI tags i = some (t, r)) :
    ∃ tg ∈ tags, t.map asciiLowerChar = tg := by
  induction tags with
  | nil => simp [lexFirstTagCI] at h
  | cons t0 ts ih =>
    rw [lexFirstTagCI] at h
    split at h
    case isTrue hp =>
      simp only [Option.some.injEq, Prod.mk.injEq] at h
      obtain ⟨rfl, -⟩ := h
      exact ⟨t0, List.mem_cons_self t0 ts, hp⟩
    case isFalse =>
      obtain ⟨tg, htg, he⟩ := ih h
      exact ⟨tg, List.mem_cons_of_mem t0 htg, he⟩

/-- C6: the engine rejects unknown operator text at the lexical level
with a typed `ParseError` and never crashes: every token the operator
lexers produce is accepted by `ComparisonOp::from_str` /
`LogicOp::from_str` (their `unreachable!()` branch is never reached from
lexed tokens), and the lexers yield a token exactly when the input starts
with a recognized operator spelling — otherwise they fail with a typed
error value. -/
theorem c6_operator_lexing_safe :
    (∀ i t r : Str, lexComparisonOp i = some (t, r) → (comparisonOpFromStr t).isSome = true)
    ∧ (∀ i t r : Str, lexLogicOp i = some (t, r) → (logicOpFromStr t).isSome = true)
    ∧ (∀ i : Str, (lexComparisonOp i).isSome = startsWithCompOp i)
    ∧ (∀ i : Str, (lexLogicOp i).isSome = startsWithLogicOp i) := by
  refine ⟨?_, ?_, ?_, ?_⟩
  · intro i t r h
    have hm := lexFirstTag_mem h
    simp only [compOpSpellings, List.mem_cons, List.not_mem_nil, or_false] at hm
    rcases hm with rfl | rfl | rfl | rfl | rfl | rfl | rfl | rfl <;> rfl
  · intro i t r h
    obtain ⟨tg, htg, he⟩ := lexFirstTagCI_lower h
    simp only [logicOpSpellings, List.mem_cons, List.not_mem_nil, or_false] at htg
    rcases htg with rfl | rfl | rfl | rfl <;> (simp only [logicOpFromStr, he]; decide)
  · intro i
    exact lexFirstTag_isSome compOpSpellings i
  · intro i
    exact lexFirstTagCI_isSome logicOpSpellings i

theorem c6_operator_lexing_safe_witness :
    (comparisonOpFromStr (str "<=")).isSome = true
    ∧ (logicOpFromStr (str "AnD")).isSome = true :=
  ⟨c6_operator_lexing_safe.1 (str "<= 5") (str "<=") (str " 5") (by decide),
   c6_operator_lexing_safe.2.1 (str "AnD x") (str "AnD") (str " x") (by decide)⟩

/-! ## Theorems about Scenario A (C7) -/

set_option maxRecDepth 20000

/-- C7: parsing Scenario A's rule succeeds with an empty remainder, and
evaluating the resulting AST against Scenario A's context yields
`Ok(true)`. -/
theorem c7_scenario_a :
    (parse ruleA).map (fun p => (p.1, eval p.2 ctxA)) = some (([] : Str), Except.ok true) := by
  rfl
